import Mathlib

/-!
Shallow embedding of the `luna_nbt` NBT codec and its serde bridge.

Conventions of the embedding:
* Rust byte streams are `List Nat` (each element a byte value `< 256`).
* Rust `String` values are `List Nat` of Unicode scalar values (`RStr`); a Rust
  `String` is always valid Unicode, which the well-formedness predicates record.
* Machine integers (`i8`/`i16`/`i32`/`i64`) and floats (`f32`/`f64`) are carried
  as their raw bit patterns, `Nat` values below `2^width`; narrowing casts in the
  source (`as u16`, `as u32`) appear as `% 2^width`.
* Fallible code returns `Except NBTError`; readers additionally return the
  unconsumed rest of the stream.  Reading past the end of the stream models the
  underlying `std::io` EOF error (`NBTError.ioErr`).
* The recursive descent reader takes a fuel argument for termination; `none`
  means the fuel ran out, which never happens for sufficient fuel.
-/

namespace NBT

/-- Rust `String`, as the list of its Unicode scalar values. -/
abbrev RStr := List Nat

/-- Unicode scalar values of a Rust string literal, for concrete inputs. -/
def strLit (s : String) : RStr := s.data.map Char.toNat

/-- The 13-valued NBT type identifier (`TagIdent` in `tags.rs`). -/
inductive TagIdent where
  | TAG_End
  | TAG_Byte
  | TAG_Short
  | TAG_Int
  | TAG_Long
  | TAG_Float
  | TAG_Double
  | TAG_Byte_Array
  | TAG_String
  | TAG_List
  | TAG_Compound
  | TAG_Int_Array
  | TAG_Long_Array
deriving DecidableEq

/-- The numeric wire value of each identifier (the `repr(u8)` discriminants in `tags.rs`). -/
def TagIdent.code : TagIdent → Nat
  | .TAG_End => 0
  | .TAG_Byte => 1
  | .TAG_Short => 2
  | .TAG_Int => 3
  | .TAG_Long => 4
  | .TAG_Float => 5
  | .TAG_Double => 6
  | .TAG_Byte_Array => 7
  | .TAG_String => 8
  | .TAG_List => 9
  | .TAG_Compound => 10
  | .TAG_Int_Array => 11
  | .TAG_Long_Array => 12

/-- `TagIdent::parse` from `tags.rs`: accept only 0–12. -/
def TagIdent.parse (value : Nat) : Option TagIdent :=
  match value with
  | 0 => some .TAG_End
  | 1 => some .TAG_Byte
  | 2 => some .TAG_Short
  | 3 => some .TAG_Int
  | 4 => some .TAG_Long
  | 5 => some .TAG_Float
  | 6 => some .TAG_Double
  | 7 => some .TAG_Byte_Array
  | 8 => some .TAG_String
  | 9 => some .TAG_List
  | 10 => some .TAG_Compound
  | 11 => some .TAG_Int_Array
  | 12 => some .TAG_Long_Array
  | _ => none

/-- The NBT tag tree (`Tag` in `tags.rs`).  `Compound(HashMap<String, Tag>)` is
modelled as an association list with pairwise-distinct keys (recorded by the
well-formedness predicate); `HashMap::insert` semantics is `insertAssoc` below. -/
inductive Tag where
  | byte (v : Nat)
  | short (v : Nat)
  | int (v : Nat)
  | long (v : Nat)
  | float (v : Nat)
  | double (v : Nat)
  | byteArray (vs : List Nat)
  | string (s : RStr)
  | list (ts : List Tag)
  | compound (m : List (RStr × Tag))
  | intArray (vs : List Nat)
  | longArray (vs : List Nat)

/-- `Tag::ident` from `tags.rs`. -/
def Tag.ident : Tag → TagIdent
  | .byte _ => .TAG_Byte
  | .short _ => .TAG_Short
  | .int _ => .TAG_Int
  | .long _ => .TAG_Long
  | .float _ => .TAG_Float
  | .double _ => .TAG_Double
  | .byteArray _ => .TAG_Byte_Array
  | .string _ => .TAG_String
  | .list _ => .TAG_List
  | .compound _ => .TAG_Compound
  | .intArray _ => .TAG_Int_Array
  | .longArray _ => .TAG_Long_Array

/-- The error taxonomy (`NBTError` in `error.rs`); the wrapped `std::io::Error`
payload of the `IO` variant is dropped. -/
inductive NBTError where
  | ioErr
  | invalidList (found expecting : TagIdent)
  | invalidTag (found : Nat)
  | invalidImplicit (found : TagIdent)
  | stringError
  | unexpectedEndTag
  | custom (msg : RStr)
  | unserializableType (type_name : RStr)
  | invalidType (found expecting : TagIdent) (when : RStr)
  | invalidChar
  | noData (when : RStr)
deriving DecidableEq

/-- `HashMap::insert`: replace the value at an existing key in place, append a
fresh key at the end.  (The list order models the map's iteration order.) -/
def insertAssoc (k : RStr) (v : Tag) : List (RStr × Tag) → List (RStr × Tag)
  | [] => [(k, v)]
  | (k', v') :: rest => if k' = k then (k, v) :: rest else (k', v') :: insertAssoc k v rest

/-! ## Big-endian byte-level primitives (the `byteorder` reads/writes) -/

/-- Big-endian byte encoding of `x` into `w` bytes (most significant first);
the image of `byteorder`'s `write_uXX::<BigEndian>` on the bit pattern `x`. -/
def beN : Nat → Nat → List Nat
  | 0, _ => []
  | w + 1, x => (x / 256 ^ w % 256) :: beN w (x % 256 ^ w)

/-- Big-endian read of `w` bytes with accumulator, consuming from the front;
models `byteorder`'s `read_uXX::<BigEndian>` (EOF mid-read is an `io` failure). -/
def readBE : Nat → Nat → List Nat → Except NBTError (Nat × List Nat)
  | 0, acc, bs => .ok (acc, bs)
  | _ + 1, _, [] => .error .ioErr
  | w + 1, acc, b :: bs => readBE w (256 * acc + b) bs

theorem beN_length (w x : Nat) : (beN w x).length = w := by
  induction w generalizing x with
  | zero => rfl
  | succ w ih => simp [beN, ih]

theorem readBE_beN (w : Nat) : ∀ x acc rest, x < 256 ^ w →
    readBE w acc (beN w x ++ rest) = .ok (acc * 256 ^ w + x, rest) := by
  induction w with
  | zero =>
    intro x acc rest hx
    interval_cases x
    simp [beN, readBE]
  | succ w ih =>
    intro x acc rest hx
    have hmod : x % 256 ^ w < 256 ^ w := Nat.mod_lt _ (Nat.pos_pow_of_pos w (by norm_num))
    have hdiv : x / 256 ^ w < 256 := by
      apply Nat.div_lt_of_lt_mul
      calc x < 256 ^ (w + 1) := hx
        _ = 256 ^ w * 256 := by rw [Nat.pow_succ]
    simp only [beN, List.cons_append, readBE, List.append_eq]
    rw [ih _ _ _ hmod]
    have h1 : x / 256 ^ w % 256 = x / 256 ^ w := Nat.mod_eq_of_lt hdiv
    have h2 : 256 ^ w * (x / 256 ^ w) + x % 256 ^ w = x := Nat.div_add_mod x (256 ^ w)
    rw [h1]
    congr 2
    rw [Nat.add_mul, Nat.pow_succ]
    nlinarith [h2]

/-- `read_size` from `decode.rs`: read exactly `size` bytes, one at a time. -/
def read_size : Nat → List Nat → Except NBTError (List Nat × List Nat)
  | 0, bs => .ok ([], bs)
  | _ + 1, [] => .error .ioErr
  | n + 1, b :: bs =>
    match read_size n bs with
    | .ok (buf, rest) => .ok (b :: buf, rest)
    | .error e => .error e

theorem read_size_append (xs : List Nat) : ∀ rest, read_size xs.length (xs ++ rest) = .ok (xs, rest) := by
  induction xs with
  | nil => intro rest; rfl
  | cons x xs ih => intro rest; simp [read_size, ih]

/-! ## String encoding: Rust UTF-8 and the `cesu8` crate's decoder -/

/-- Is `c` a Unicode scalar value (what a Rust `char` may hold)? -/
def isScalar (c : Nat) : Bool :=
  decide (c < 0x110000) && (decide (c < 0xD800) || decide (0xE000 ≤ c))

/-- Standard UTF-8 encoding of one scalar value: what `str::as_bytes` holds for it. -/
def utf8EncodeChar (c : Nat) : List Nat :=
  if c < 0x80 then [c]
  else if c < 0x800 then [0xC0 + c / 64, 0x80 + c % 64]
  else if c < 0x10000 then [0xE0 + c / 4096, 0x80 + c / 64 % 64, 0x80 + c % 64]
  else [0xF0 + c / 262144, 0x80 + c / 4096 % 64, 0x80 + c / 64 % 64, 0x80 + c % 64]

/-- `String::as_bytes` / `String::len` source of truth: the UTF-8 bytes of a string. -/
def utf8Encode : RStr → List Nat
  | [] => []
  | c :: cs => utf8EncodeChar c ++ utf8Encode cs

/-- Is `b` a UTF-8 continuation byte? -/
def isCont (b : Nat) : Bool := decide (0x80 ≤ b) && decide (b < 0xC0)

mutual

/-- `str::from_utf8` as a total function: strict UTF-8 validation (rejecting
overlong forms, surrogates and values above U+10FFFF), returning the decoded
scalar values.  Split into one helper per sequence width. -/
def utf8Decode : List Nat → Option RStr
  | [] => some []
  | b :: bs =>
    if b < 0x80 then (utf8Decode bs).map (b :: ·)
    else if b < 0xC2 then none
    else if b < 0xE0 then utf8Dec2 b bs
    else if b < 0xF0 then utf8Dec3 b bs
    else if b < 0xF5 then utf8Dec4 b bs
    else none

def utf8Dec2 (b : Nat) : List Nat → Option RStr
  | b1 :: bs1 =>
    if isCont b1 then
      (utf8Decode bs1).map (((b - 0xC0) * 64 + (b1 - 0x80)) :: ·)
    else none
  | [] => none

def utf8Dec3 (b : Nat) : List Nat → Option RStr
  | b1 :: b2 :: bs2 =>
    if isCont b1 && isCont b2 && !(b == 0xE0 && b1 < 0xA0) && !(b == 0xED && 0xA0 ≤ b1) then
      (utf8Decode bs2).map (((b - 0xE0) * 4096 + (b1 - 0x80) * 64 + (b2 - 0x80)) :: ·)
    else none
  | _ => none

def utf8Dec4 (b : Nat) : List Nat → Option RStr
  | b1 :: b2 :: b3 :: bs3 =>
    if isCont b1 && isCont b2 && isCont b3 && !(b == 0xF0 && b1 < 0x90) && !(b == 0xF4 && 0x90 ≤ b1) then
      (utf8Decode bs3).map
        (((b - 0xF0) * 262144 + (b1 - 0x80) * 4096 + (b2 - 0x80) * 64 + (b3 - 0x80)) :: ·)
    else none
  | _ => none

end

/-- Slow path of the `cesu8` crate's `from_java_cesu8` (its `decode_from_iter`),
reached only on input that is not valid UTF-8: ASCII bytes pass through, a
six-byte CESU-8 surrogate pair (`ED A0..AF cont ED B0..BF cont`) decodes to one
supplementary-plane scalar, and other two- and three-byte sequences decode by
their UTF-8 arithmetic.  This models the behavior of the third-party crate,
whose source is outside this repository. -/
def cesu8DecodeSlow : List Nat → Option RStr
  | [] => some []
  | b :: bs =>
    if b < 0x80 then
      (cesu8DecodeSlow bs).map (b :: ·)
    else
      match bs with
      | [] => none
      | b1 :: bs1 =>
        if !isCont b1 then none
        else if b == 0xED && 0xA0 ≤ b1 && b1 ≤ 0xAF then
          match bs1 with
          | b2 :: b3 :: b4 :: b5 :: bs5 =>
            if isCont b2 && b3 == 0xED && 0xB0 ≤ b4 && b4 ≤ 0xBF && isCont b5 then
              (cesu8DecodeSlow bs5).map
                ((0x10000 + ((b1 - 0xA0) * 64 + (b2 - 0x80)) * 1024 + (b4 - 0xB0) * 64 + (b5 - 0x80)) :: ·)
            else none
          | _ => none
        else if 0xC2 ≤ b && b < 0xE0 then
          (cesu8DecodeSlow bs1).map (((b - 0xC0) * 64 + (b1 - 0x80)) :: ·)
        else if 0xE0 ≤ b && b < 0xF0 then
          match bs1 with
          | b2 :: bs2 =>
            if isCont b2 then
              (cesu8DecodeSlow bs2).map (((b - 0xE0) * 4096 + (b1 - 0x80) * 64 + (b2 - 0x80)) :: ·)
            else none
          | [] => none
        else none

/-- `decode_wonky_string` from `decode.rs`: `cesu8::from_java_cesu8`, which first
accepts any valid UTF-8 verbatim and otherwise attempts CESU-8 decoding; failure
becomes `NBTError::StringError`. -/
def decode_wonky_string (b : List Nat) : Except NBTError RStr :=
  match utf8Decode b with
  | some s => .ok s
  | none =>
    match cesu8DecodeSlow b with
    | some s => .ok s
    | none => .error .stringError

theorem utf8Decode_encodeChar (c : Nat) (h : isScalar c = true) (bs : List Nat) :
    utf8Decode (utf8EncodeChar c ++ bs) = (utf8Decode bs).map (c :: ·) := by
  have h' : c < 0x110000 ∧ (c < 0xD800 ∨ 0xE000 ≤ c) := by
    simpa [isScalar] using h
  have d1 : c / 64 / 64 = c / 4096 := by rw [Nat.div_div_eq_div_mul]
  have d2 : c / 4096 / 64 = c / 262144 := by rw [Nat.div_div_eq_div_mul]
  by_cases h1 : c < 0x80
  · have e : utf8EncodeChar c = [c] := by simp [utf8EncodeChar, h1]
    rw [e, List.singleton_append]
    simp only [utf8Decode, h1, if_true]
  · by_cases h2 : c < 0x800
    · have e : utf8EncodeChar c = [0xC0 + c / 64, 0x80 + c % 64] := by
        simp [utf8EncodeChar, h1, h2]
      have n1 : ¬ (0xC0 + c / 64 < 0x80) := by omega
      have n2 : ¬ (0xC0 + c / 64 < 0xC2) := by omega
      have n3 : 0xC0 + c / 64 < 0xE0 := by omega
      have n4 : isCont (0x80 + c % 64) = true := by
        simp only [isCont, Bool.and_eq_true, decide_eq_true_eq]
        omega
      have n5 : (0xC0 + c / 64 - 0xC0) * 64 + (0x80 + c % 64 - 0x80) = c := by omega
      rw [e]
      simp only [List.cons_append, List.nil_append]
      simp only [utf8Decode, n1, n2, n3, if_false, if_true, ite_true, ite_false]
      simp only [utf8Dec2, n4, if_true, ite_true, n5]
    · by_cases h3 : c < 0x10000
      · have e : utf8EncodeChar c = [0xE0 + c / 4096, 0x80 + c / 64 % 64, 0x80 + c % 64] := by
          simp [utf8EncodeChar, h1, h2, h3]
        have n1 : ¬ (0xE0 + c / 4096 < 0x80) := by omega
        have n2 : ¬ (0xE0 + c / 4096 < 0xC2) := by omega
        have n3 : ¬ (0xE0 + c / 4096 < 0xE0) := by omega
        have n4 : 0xE0 + c / 4096 < 0xF0 := by omega
        have n5 : (isCont (0x80 + c / 64 % 64) && isCont (0x80 + c % 64) &&
            !(0xE0 + c / 4096 == 0xE0 && 0x80 + c / 64 % 64 < 0xA0) &&
            !(0xE0 + c / 4096 == 0xED && 0xA0 ≤ 0x80 + c / 64 % 64)) = true := by
          simp only [isCont, Bool.and_eq_true, Bool.not_eq_true', Bool.and_eq_false_iff,
            decide_eq_true_eq, decide_eq_false_iff_not, beq_iff_eq, beq_eq_false_iff_ne, ne_eq]
          omega
        have n6 : (0xE0 + c / 4096 - 0xE0) * 4096 + (0x80 + c / 64 % 64 - 0x80) * 64 +
            (0x80 + c % 64 - 0x80) = c := by omega
        rw [e]
        simp only [List.cons_append, List.nil_append]
        simp only [utf8Decode, n1, n2, n3, n4, if_false, if_true, ite_true, ite_false]
        simp only [utf8Dec3, n5, if_true, ite_true, n6]
      · have e : utf8EncodeChar c =
            [0xF0 + c / 262144, 0x80 + c / 4096 % 64, 0x80 + c / 64 % 64, 0x80 + c % 64] := by
          simp [utf8EncodeChar, h1, h2, h3]
        have n1 : ¬ (0xF0 + c / 262144 < 0x80) := by omega
        have n2 : ¬ (0xF0 + c / 262144 < 0xC2) := by omega
        have n3 : ¬ (0xF0 + c / 262144 < 0xE0) := by omega
        have n4 : ¬ (0xF0 + c / 262144 < 0xF0) := by omega
        have n5 : 0xF0 + c / 262144 < 0xF5 := by omega
        have n6 : (isCont (0x80 + c / 4096 % 64) && isCont (0x80 + c / 64 % 64) &&
            isCont (0x80 + c % 64) &&
            !(0xF0 + c / 262144 == 0xF0 && 0x80 + c / 4096 % 64 < 0x90) &&
            !(0xF0 + c / 262144 == 0xF4 && 0x90 ≤ 0x80 + c / 4096 % 64)) = true := by
          simp only [isCont, Bool.and_eq_true, Bool.not_eq_true', Bool.and_eq_false_iff,
            decide_eq_true_eq, decide_eq_false_iff_not, beq_iff_eq, beq_eq_false_iff_ne, ne_eq]
          omega
        have n7 : (0xF0 + c / 262144 - 0xF0) * 262144 + (0x80 + c / 4096 % 64 - 0x80) * 4096 +
            (0x80 + c / 64 % 64 - 0x80) * 64 + (0x80 + c % 64 - 0x80) = c := by omega
        rw [e]
        simp only [List.cons_append, List.nil_append]
        simp only [utf8Decode, n1, n2, n3, n4, n5, if_false, if_true, ite_true, ite_false]
        simp only [utf8Dec4, n6, if_true, ite_true, n7]

theorem utf8Decode_encode (s : RStr) : ∀ bs, (∀ c ∈ s, isScalar c = true) →
    utf8Decode (utf8Encode s ++ bs) = (utf8Decode bs).map (s ++ ·) := by
  induction s with
  | nil =>
    intro bs _
    simp [utf8Encode]
  | cons c cs ih =>
    intro bs hs
    have hc : isScalar c = true := hs c (by simp)
    have hcs : ∀ x ∈ cs, isScalar x = true := fun x hx => hs x (by simp [hx])
    simp only [utf8Encode, List.append_assoc]
    rw [utf8Decode_encodeChar c hc, ih _ hcs, Option.map_map]
    rfl

theorem utf8Decode_encode_self (s : RStr) (hs : ∀ c ∈ s, isScalar c = true) :
    utf8Decode (utf8Encode s) = some s := by
  have h := utf8Decode_encode s [] hs
  have h0 : utf8Decode ([] : List Nat) = some [] := by simp [utf8Decode]
  rw [List.append_nil, h0] at h
  simpa using h

theorem decode_wonky_utf8 (s : RStr) (hs : ∀ c ∈ s, isScalar c = true) :
    decode_wonky_string (utf8Encode s) = .ok s := by
  simp [decode_wonky_string, utf8Decode_encode_self s hs]

/-! ## Encoder (`encode.rs`) -/

/-- `write_string` from `encode.rs`: write the 16-bit big-endian byte length of
the UTF-8 encoding (`bytes.len() as u16`: the narrowing cast is `% 65536`),
then all the bytes. -/
def write_string (s : RStr) : List Nat :=
  beN 2 ((utf8Encode s).length % 65536) ++ utf8Encode s

/-- The loop of `ensure_list_integrity`, comparing every item's ident with the
first item's. -/
def listCheckLoop (expecting : TagIdent) : List Tag → Except NBTError TagIdent
  | [] => .ok expecting
  | item :: rest =>
    if item.ident ≠ expecting then .error (.invalidList item.ident expecting)
    else listCheckLoop expecting rest

/-- `ensure_list_integrity` from `encode.rs`: an empty list yields `TAG_End`,
otherwise every item must have the first item's ident. -/
def ensure_list_integrity (list : List Tag) : Except NBTError TagIdent :=
  match list with
  | [] => .ok .TAG_End
  | t :: _ => listCheckLoop t.ident list

/-- The element loop of the array writers: fixed-width big-endian writes. -/
def write_scalars (width : Nat) : List Nat → List Nat
  | [] => []
  | v :: vs => beN width v ++ write_scalars width vs

mutual

/-- `write_tag` from `encode.rs`.  Scalars are fixed-width big-endian writes of
the bit pattern; arrays and lists write a 32-bit length (`len() as u32`, the
cast is `% 2^32`); a list first passes `ensure_list_integrity`. -/
def write_tag : Tag → Except NBTError (List Nat)
  | .byte v => .ok (beN 1 v)
  | .short v => .ok (beN 2 v)
  | .int v => .ok (beN 4 v)
  | .long v => .ok (beN 8 v)
  | .float v => .ok (beN 4 v)
  | .double v => .ok (beN 8 v)
  | .byteArray vs => .ok (beN 4 (vs.length % 4294967296) ++ write_scalars 1 vs)
  | .string s => .ok (write_string s)
  | .list ts =>
    match ensure_list_integrity ts with
    | .error e => .error e
    | .ok list_type =>
      match write_list ts with
      | .error e => .error e
      | .ok body => .ok (list_type.code :: beN 4 (ts.length % 4294967296) ++ body)
  | .compound m => write_compound m
  | .intArray vs => .ok (beN 4 (vs.length % 4294967296) ++ write_scalars 4 vs)
  | .longArray vs => .ok (beN 4 (vs.length % 4294967296) ++ write_scalars 8 vs)

/-- The item loop of `write_tag` for `Tag::List`: items written without prefix. -/
def write_list : List Tag → Except NBTError (List Nat)
  | [] => .ok []
  | t :: ts =>
    match write_tag t with
    | .error e => .error e
    | .ok head =>
      match write_list ts with
      | .error e => .error e
      | .ok tail => .ok (head ++ tail)

/-- `write_compound` from `encode.rs`: per entry the child's ident byte, its
name as a prefixed string, its payload; then a final `TAG_End` byte. -/
def write_compound : List (RStr × Tag) → Except NBTError (List Nat)
  | [] => .ok [TagIdent.code .TAG_End]
  | (name, payload) :: rest =>
    match write_tag payload with
    | .error e => .error e
    | .ok body =>
      match write_compound rest with
      | .error e => .error e
      | .ok tail => .ok (payload.ident.code :: write_string name ++ body ++ tail)

end

/-- `write_root` from `encode.rs`: the implicit compound ident byte, the root
name, then the compound body. -/
def write_root (name : RStr) (elements : List (RStr × Tag)) : Except NBTError (List Nat) :=
  match write_compound elements with
  | .error e => .error e
  | .ok body => .ok (TagIdent.code .TAG_Compound :: write_string name ++ body)

/-! ## Well-formedness: what a Rust `Tag` value can hold

Rust's types make every scalar payload fit its width, every `String` valid
Unicode and every `HashMap` free of duplicate keys; the byte/element-count
bounds record the values for which the narrowing length casts are lossless. -/

/-- A constructible Rust string whose encoded length survives the `u16` cast. -/
def strWF (s : RStr) : Bool :=
  s.all isScalar && decide ((utf8Encode s).length < 65536)

/-- All elements share the first element's ident (what `ensure_list_integrity`
enforces). -/
def listHomog : List Tag → Bool
  | [] => true
  | t :: rest => rest.all (fun x => decide (x.ident = t.ident))

/-- Pairwise-distinct compound keys (a `HashMap` invariant). -/
def keysDistinct : List (RStr × Tag) → Bool
  | [] => true
  | (k, _) :: rest => rest.all (fun e => decide (e.1 ≠ k)) && keysDistinct rest

mutual

/-- Well-formed tag tree: payloads in range, strings valid and short enough for
the `u16` length cast, arrays/lists short enough for the `u32` length cast,
lists homogeneous, compound keys distinct. -/
def tagWF : Tag → Bool
  | .byte v => decide (v < 256)
  | .short v => decide (v < 65536)
  | .int v => decide (v < 4294967296)
  | .long v => decide (v < 18446744073709551616)
  | .float v => decide (v < 4294967296)
  | .double v => decide (v < 18446744073709551616)
  | .byteArray vs => decide (vs.length < 4294967296) && vs.all (fun v => decide (v < 256))
  | .string s => strWF s
  | .list ts => decide (ts.length < 4294967296) && listHomog ts && listWF ts
  | .compound m => keysDistinct m && compWF m
  | .intArray vs => decide (vs.length < 4294967296) && vs.all (fun v => decide (v < 4294967296))
  | .longArray vs =>
    decide (vs.length < 4294967296) && vs.all (fun v => decide (v < 18446744073709551616))

/-- Well-formedness of every element of a list payload. -/
def listWF : List Tag → Bool
  | [] => true
  | t :: ts => tagWF t && listWF ts

/-- Well-formedness of every entry of a compound payload. -/
def compWF : List (RStr × Tag) → Bool
  | [] => true
  | (k, v) :: rest => strWF k && tagWF v && compWF rest

end

mutual

/-- Fuel sufficient for the reader to reconstruct a tag (one unit per
recursive-descent call). -/
def tagCost : Tag → Nat
  | .list ts => 1 + listCost ts
  | .compound m => 1 + compCost m
  | _ => 1

/-- Fuel sufficient to read back a list body. -/
def listCost : List Tag → Nat
  | [] => 1
  | t :: ts => 1 + max (tagCost t) (listCost ts)

/-- Fuel sufficient to read back a compound body. -/
def compCost : List (RStr × Tag) → Nat
  | [] => 1
  | (_, v) :: rest => 1 + max (tagCost v) (compCost rest)

end

/-! ## Decoder (`decode.rs`) -/

/-- Reader results: `none` is exhausted fuel (a modelling artifact only), a
`some` carries the Rust result together with the unconsumed bytes. -/
abbrev DecRes (α : Type) := Option (Except NBTError (α × List Nat))

/-- `read_ident` from `decode.rs`: one byte through `TagIdent::parse`,
`InvalidTag` on values outside 0–12. -/
def read_ident (bs : List Nat) : Except NBTError (TagIdent × List Nat) :=
  match readBE 1 0 bs with
  | .error e => .error e
  | .ok (byte, rest) =>
    match TagIdent.parse byte with
    | some x => .ok (x, rest)
    | none => .error (.invalidTag byte)

/-- `read_string` from `decode.rs`: 16-bit big-endian length, that many bytes,
then `decode_wonky_string`. -/
def read_string (bs : List Nat) : Except NBTError (RStr × List Nat) :=
  match readBE 2 0 bs with
  | .error e => .error e
  | .ok (length, rest) =>
    match read_size length rest with
    | .error e => .error e
    | .ok (buffer, rest2) =>
      match decode_wonky_string buffer with
      | .ok s => .ok (s, rest2)
      | .error e => .error e

/-- The element loops of the array readers: `length` fixed-width big-endian reads. -/
def read_scalars (width : Nat) : Nat → List Nat → Except NBTError (List Nat × List Nat)
  | 0, bs => .ok ([], bs)
  | n + 1, bs =>
    match readBE width 0 bs with
    | .error e => .error e
    | .ok (v, rest) =>
      match read_scalars width n rest with
      | .error e => .error e
      | .ok (vs, rest2) => .ok (v :: vs, rest2)

mutual

/-- `read_tag` from `decode.rs`, dispatched on the ident that was read for this
payload.  `TAG_End` is always `UnexpectedEndTag`. -/
def read_tag : Nat → TagIdent → List Nat → DecRes Tag
  | 0, _, _ => none
  | _ + 1, .TAG_End, _ => some (.error .unexpectedEndTag)
  | _ + 1, .TAG_Byte, bs =>
    match readBE 1 0 bs with
    | .error e => some (.error e)
    | .ok (v, rest) => some (.ok (.byte v, rest))
  | _ + 1, .TAG_Short, bs =>
    match readBE 2 0 bs with
    | .error e => some (.error e)
    | .ok (v, rest) => some (.ok (.short v, rest))
  | _ + 1, .TAG_Int, bs =>
    match readBE 4 0 bs with
    | .error e => some (.error e)
    | .ok (v, rest) => some (.ok (.int v, rest))
  | _ + 1, .TAG_Long, bs =>
    match readBE 8 0 bs with
    | .error e => some (.error e)
    | .ok (v, rest) => some (.ok (.long v, rest))
  | _ + 1, .TAG_Float, bs =>
    match readBE 4 0 bs with
    | .error e => some (.error e)
    | .ok (v, rest) => some (.ok (.float v, rest))
  | _ + 1, .TAG_Double, bs =>
    match readBE 8 0 bs with
    | .error e => some (.error e)
    | .ok (v, rest) => some (.ok (.double v, rest))
  | _ + 1, .TAG_Byte_Array, bs =>
    match readBE 4 0 bs with
    | .error e => some (.error e)
    | .ok (length, rest) =>
      match read_scalars 1 length rest with
      | .error e => some (.error e)
      | .ok (vs, rest2) => some (.ok (.byteArray vs, rest2))
  | _ + 1, .TAG_String, bs =>
    match read_string bs with
    | .error e => some (.error e)
    | .ok (s, rest) => some (.ok (.string s, rest))
  | fuel + 1, .TAG_List, bs =>
    match read_ident bs with
    | .error e => some (.error e)
    | .ok (ident, rest) =>
      match readBE 4 0 rest with
      | .error e => some (.error e)
      | .ok (length, rest2) =>
        match read_list fuel ident length rest2 with
        | none => none
        | some (.error e) => some (.error e)
        | some (.ok (ts, rest3)) => some (.ok (.list ts, rest3))
  | fuel + 1, .TAG_Compound, bs =>
    match read_compound fuel [] bs with
    | none => none
    | some (.error e) => some (.error e)
    | some (.ok (m, rest)) => some (.ok (.compound m, rest))
  | _ + 1, .TAG_Int_Array, bs =>
    match readBE 4 0 bs with
    | .error e => some (.error e)
    | .ok (length, rest) =>
      match read_scalars 4 length rest with
      | .error e => some (.error e)
      | .ok (vs, rest2) => some (.ok (.intArray vs, rest2))
  | _ + 1, .TAG_Long_Array, bs =>
    match readBE 4 0 bs with
    | .error e => some (.error e)
    | .ok (length, rest) =>
      match read_scalars 8 length rest with
      | .error e => some (.error e)
      | .ok (vs, rest2) => some (.ok (.longArray vs, rest2))

/-- The item loop of `read_tag` for `TAG_List`: `n` unnamed payloads of the
declared element ident. -/
def read_list : Nat → TagIdent → Nat → List Nat → DecRes (List Tag)
  | 0, _, _, _ => none
  | _ + 1, _, 0, bs => some (.ok ([], bs))
  | fuel + 1, ident, n + 1, bs =>
    match read_tag fuel ident bs with
    | none => none
    | some (.error e) => some (.error e)
    | some (.ok (t, rest)) =>
      match read_list fuel ident n rest with
      | none => none
      | some (.error e) => some (.error e)
      | some (.ok (ts, rest2)) => some (.ok (t :: ts, rest2))

/-- `read_compound` from `decode.rs`: loop reading ident/name/payload entries
until a `TAG_End` ident; `compound` is the loop's `HashMap` accumulator
(initially empty), filled with `HashMap::insert` semantics. -/
def read_compound : Nat → List (RStr × Tag) → List Nat → DecRes (List (RStr × Tag))
  | 0, _, _ => none
  | fuel + 1, compound, bs =>
    match read_ident bs with
    | .error e => some (.error e)
    | .ok (ident, rest) =>
      if ident = .TAG_End then some (.ok (compound, rest))
      else
        match read_string rest with
        | .error e => some (.error e)
        | .ok (name, rest2) =>
          match read_tag fuel ident rest2 with
          | none => none
          | some (.error e) => some (.error e)
          | some (.ok (payload, rest3)) =>
            read_compound fuel (insertAssoc name payload compound) rest3

end

/-- `read_root` from `decode.rs`: one ident that must be `TAG_Compound`
(`InvalidImplicit` otherwise), the document name, then the compound body. -/
def read_root (fuel : Nat) (bs : List Nat) : DecRes (RStr × List (RStr × Tag)) :=
  match read_ident bs with
  | .error e => some (.error e)
  | .ok (implicit_ident, rest) =>
    if implicit_ident ≠ .TAG_Compound then some (.error (.invalidImplicit implicit_ident))
    else
      match read_string rest with
      | .error e => some (.error e)
      | .ok (name, rest2) =>
        match read_compound fuel [] rest2 with
        | none => none
        | some (.error e) => some (.error e)
        | some (.ok (compound, rest3)) => some (.ok ((name, compound), rest3))

/-! ## Serde bridge: serializer (`ser.rs`) -/

/-- The cargo features `serde_boolean` / `serde_unsigned` that gate the
boolean-as-byte and unsigned-as-signed conventions (`lib.rs`, `ser.rs`, `de.rs`). -/
structure SerdeCfg where
  boolean : Bool
  unsigned : Bool

/-- The default features: `serde_boolean` on, `serde_unsigned` off. -/
def defaultCfg : SerdeCfg := ⟨true, false⟩

/-- A value of the serde data model as the serializer visits it: every shape a
`Serialize` implementation can present.  Machine scalars are bit patterns. -/
inductive SValue where
  | sBool (b : Bool)
  | sI8 (v : Nat)
  | sI16 (v : Nat)
  | sI32 (v : Nat)
  | sI64 (v : Nat)
  | sU8 (v : Nat)
  | sU16 (v : Nat)
  | sU32 (v : Nat)
  | sU64 (v : Nat)
  | sF32 (v : Nat)
  | sF64 (v : Nat)
  | sChar (c : Nat)
  | sStr (s : RStr)
  | sBytes (bs : List Nat)
  | sNone
  | sSome (v : SValue)
  | sUnit
  | sUnitStruct
  | sUnitVariant (variant : RStr)
  | sNewtypeStruct (v : SValue)
  | sNewtypeVariant (variant : RStr) (v : SValue)
  | sSeq (vs : List SValue)
  | sTuple (vs : List SValue)
  | sTupleStruct (vs : List SValue)
  | sTupleVariant (variant : RStr) (vs : List SValue)
  | sMap (entries : List (SValue × SValue))
  | sStruct (fields : List (RStr × SValue))
  | sStructVariant (variant : RStr) (fields : List (RStr × SValue))

/-- `external` from `ser.rs`: the externally-tagged wrapper, a single-entry
compound keyed by the variant name. -/
def external (name : RStr) (value : Tag) : Tag := .compound [(name, value)]

mutual

/-- `NBTSerializer` from `ser.rs` as one function over the visited shape.  The
`serialize_u64` error names `"i64"`, as the source does.  Unsigned values are
reinterpreted (`as iNN`) as the same bit pattern. -/
def serialize_value (cfg : SerdeCfg) : SValue → Except NBTError (Option Tag)
  | .sBool b =>
    if cfg.boolean then .ok (some (.byte (if b then 1 else 0)))
    else .error (.unserializableType (strLit ("bool")))
  | .sI8 v => .ok (some (.byte v))
  | .sI16 v => .ok (some (.short v))
  | .sI32 v => .ok (some (.int v))
  | .sI64 v => .ok (some (.long v))
  | .sU8 v =>
    if cfg.unsigned then .ok (some (.byte v))
    else .error (.unserializableType (strLit ("u8")))
  | .sU16 v =>
    if cfg.unsigned then .ok (some (.short v))
    else .error (.unserializableType (strLit ("u16")))
  | .sU32 v =>
    if cfg.unsigned then .ok (some (.int v))
    else .error (.unserializableType (strLit ("u32")))
  | .sU64 v =>
    if cfg.unsigned then .ok (some (.long v))
    else .error (.unserializableType (strLit ("i64")))
  | .sF32 v => .ok (some (.float v))
  | .sF64 v => .ok (some (.double v))
  | .sChar c => .ok (some (.string [c]))
  | .sStr s => .ok (some (.string s))
  | .sBytes _ => .error (.unserializableType (strLit ("bytes")))
  | .sNone => .ok none
  | .sSome v => serialize_value cfg v
  | .sUnit => .ok none
  | .sUnitStruct => .ok none
  | .sUnitVariant variant => .ok (some (.string variant))
  | .sNewtypeStruct v => serialize_value cfg v
  | .sNewtypeVariant variant v =>
    match serialize_value cfg v with
    | .error e => .error e
    | .ok (some x) => .ok (some (external variant x))
    | .ok none => .ok none
  | .sSeq vs =>
    match serialize_seq_elements cfg vs with
    | .error e => .error e
    | .ok elements => .ok (some (.list elements))
  | .sTuple vs =>
    match serialize_seq_elements cfg vs with
    | .error e => .error e
    | .ok elements => .ok (some (.list elements))
  | .sTupleStruct vs =>
    match serialize_seq_elements cfg vs with
    | .error e => .error e
    | .ok elements => .ok (some (.list elements))
  | .sTupleVariant variant vs =>
    match serialize_seq_elements cfg vs with
    | .error e => .error e
    | .ok elements => .ok (some (external variant (.list elements)))
  | .sMap entries =>
    match serialize_map_entries cfg none [] entries with
    | .error e => .error e
    | .ok map => .ok (some (.compound map))
  | .sStruct fields =>
    match serialize_struct_fields cfg [] fields with
    | .error e => .error e
    | .ok map => .ok (some (.compound map))
  | .sStructVariant variant fields =>
    match serialize_struct_fields cfg [] fields with
    | .error e => .error e
    | .ok map => .ok (some (external variant (.compound map)))

/-- `NBTSeqSerializer`: `serialize_element` pushes only `Some` results, `end`
wraps the collected elements. -/
def serialize_seq_elements (cfg : SerdeCfg) : List SValue → Except NBTError (List Tag)
  | [] => .ok []
  | v :: vs =>
    match serialize_value cfg v with
    | .error e => .error e
    | .ok none => serialize_seq_elements cfg vs
    | .ok (some tag) =>
      match serialize_seq_elements cfg vs with
      | .error e => .error e
      | .ok elements => .ok (tag :: elements)

/-- `NBTMapSerializer` driven over the entries in order: `serialize_key` makes a
key pending only when it serialized to `Some(Tag::String)`; `serialize_value`
serializes the value only under a pending key, inserts only `Some` results, and
always clears the pending key. -/
def serialize_map_entries (cfg : SerdeCfg) (key : Option RStr) (map : List (RStr × Tag)) :
    List (SValue × SValue) → Except NBTError (List (RStr × Tag))
  | [] => .ok map
  | (k, v) :: entries =>
    match serialize_value cfg k with
    | .error e => .error e
    | .ok kt =>
      match (match kt with | some (.string s) => some s | _ => key) with
      | some kk =>
        match serialize_value cfg v with
        | .error e => .error e
        | .ok (some tv) => serialize_map_entries cfg none (insertAssoc kk tv map) entries
        | .ok none => serialize_map_entries cfg none map entries
      | none => serialize_map_entries cfg none map entries

/-- `NBTStructSerializer` / `NBTVariantStructSerializer` field loop: insert only
`Some` results under the field name. -/
def serialize_struct_fields (cfg : SerdeCfg) (map : List (RStr × Tag)) :
    List (RStr × SValue) → Except NBTError (List (RStr × Tag))
  | [] => .ok map
  | (k, v) :: fields =>
    match serialize_value cfg v with
    | .error e => .error e
    | .ok (some tv) => serialize_struct_fields cfg (insertAssoc k tv map) fields
    | .ok none => serialize_struct_fields cfg map fields

end

/-! ## Serde bridge: deserializer (`de.rs`) -/

/-- The generic serde visitor the deserializer drives: one field per `visit_*`
entry point reachable from the modelled methods.  A cursor argument carries the
cursor state handed to `visit_seq`/`visit_map` (its list of remaining items). -/
structure Visitor (α : Type) where
  visitI8 : Nat → Except NBTError α
  visitI16 : Nat → Except NBTError α
  visitI32 : Nat → Except NBTError α
  visitI64 : Nat → Except NBTError α
  visitF32 : Nat → Except NBTError α
  visitF64 : Nat → Except NBTError α
  visitString : RStr → Except NBTError α
  visitChar : Nat → Except NBTError α
  visitSeq : List Tag → Except NBTError α
  visitMap : List (RStr × Tag) → Except NBTError α
  visitNone : Except NBTError α

/-- `NBTDeserializer::deserialize_any` from `de.rs`: dispatch on the stored tag;
the three scalar arrays are exposed to `visit_seq` as cursors of boxed scalar
tags, exactly like a `List`. -/
def deserialize_any {α : Type} (v : Visitor α) : Option Tag → Except NBTError α
  | some (.byte x) => v.visitI8 x
  | some (.short x) => v.visitI16 x
  | some (.int x) => v.visitI32 x
  | some (.long x) => v.visitI64 x
  | some (.float x) => v.visitF32 x
  | some (.double x) => v.visitF64 x
  | some (.byteArray list) => v.visitSeq (list.map Tag.byte)
  | some (.string x) => v.visitString x
  | some (.list array) => v.visitSeq array
  | some (.compound compound) => v.visitMap compound
  | some (.intArray list) => v.visitSeq (list.map Tag.int)
  | some (.longArray list) => v.visitSeq (list.map Tag.long)
  | none => v.visitNone

/-- `NBTDeserializer::deserialize_seq` from `de.rs`: requires exactly a
`Tag::List`; anything else is `InvalidType{expecting: TAG_List, when: "seq"}`,
absence is `NoData{when: "seq"}`. -/
def deserialize_seq {α : Type} (v : Visitor α) : Option Tag → Except NBTError α
  | none => .error (.noData (strLit ("seq")))
  | some data =>
    match data with
    | .list list => v.visitSeq list
    | _ => .error (.invalidType data.ident .TAG_List (strLit ("seq")))

/-- `NBTDeserializer::deserialize_char` from `de.rs`: requires a `Tag::String`
whose `String::len()` — its UTF-8 **byte** count — equals 1, then visits
`chars().nth(0).unwrap()`; otherwise `InvalidChar` (the empty-string arm of the
inner match models the guarded `unwrap` and is unreachable). -/
def deserialize_char {α : Type} (v : Visitor α) : Option Tag → Except NBTError α
  | some (.string x) =>
    if (utf8Encode x).length = 1 then
      match x with
      | c :: _ => v.visitChar c
      | [] => .error .invalidChar
    else .error .invalidChar
  | some tag => .error (.invalidType tag.ident .TAG_String (strLit ("char")))
  | none => .error (.noData (strLit ("char")))

/-! ## Supporting lemmas -/

theorem listCheckLoop_spec (l : List Tag) : ∀ expecting,
    listCheckLoop expecting l =
      (match l.find? (fun x => decide (x.ident ≠ expecting)) with
       | some d => .error (.invalidList d.ident expecting)
       | none => .ok expecting) := by
  induction l with
  | nil => intro expecting; rfl
  | cons t ts ih =>
    intro expecting
    by_cases h : t.ident = expecting
    · simp [listCheckLoop, List.find?, h, ih]
    · simp [listCheckLoop, List.find?, h]

theorem read_string_write_string (s : RStr) (h : strWF s = true) (rest : List Nat) :
    read_string (write_string s ++ rest) = .ok (s, rest) := by
  have hparts : (∀ c ∈ s, isScalar c = true) ∧ (utf8Encode s).length < 65536 := by
    simpa [strWF, List.all_eq_true] using h
  obtain ⟨hall, hlen⟩ := hparts
  have hmod : (utf8Encode s).length % 65536 = (utf8Encode s).length := Nat.mod_eq_of_lt hlen
  have hlt : (utf8Encode s).length < 256 ^ 2 := by norm_num at hlen ⊢; omega
  unfold write_string read_string
  rw [hmod, List.append_assoc, readBE_beN 2 _ 0 _ hlt]
  simp only [Nat.zero_mul, Nat.zero_add]
  rw [show (utf8Encode s ++ rest) = utf8Encode s ++ rest from rfl]
  have h1 : read_size (utf8Encode s).length (utf8Encode s ++ rest) = .ok (utf8Encode s, rest) :=
    read_size_append (utf8Encode s) rest
  rw [h1]
  simp [decode_wonky_utf8 s hall]

/-! ## C3: `ensure_list_integrity` -/

/-- C3: run before any `List` is written, `ensure_list_integrity` yields
`TAG_End` for the empty list, the shared ident when every element matches the
first element's ident, and for a mixed list fails with `InvalidList` whose
`expecting` is the first element's ident and whose `found` is the ident of the
first differing element; a failure makes `write_tag` of that list fail
identically. -/
theorem C3_ensure_list_integrity (l : List Tag) :
    (ensure_list_integrity l =
      (match l with
       | [] => .ok .TAG_End
       | t0 :: _ =>
         match l.find? (fun x => decide (x.ident ≠ t0.ident)) with
         | some d => .error (.invalidList d.ident t0.ident)
         | none => .ok t0.ident)) ∧
    (∀ e, ensure_list_integrity l = .error e → write_tag (.list l) = .error e) := by
  constructor
  · match l with
    | [] => rfl
    | t0 :: ts =>
      show listCheckLoop t0.ident (t0 :: ts) = _
      rw [listCheckLoop_spec]
  · intro e he
    simp [write_tag, he]

theorem C3_ensure_list_integrity_witness :
    ensure_list_integrity [Tag.byte 1, Tag.short 2] =
      .error (.invalidList .TAG_Short .TAG_Byte) ∧
    write_tag (.list [Tag.byte 1, Tag.short 2]) = .error (.invalidList .TAG_Short .TAG_Byte) := by
  have h := C3_ensure_list_integrity [Tag.byte 1, Tag.short 2]
  have h1 : ensure_list_integrity [Tag.byte 1, Tag.short 2] =
      .error (.invalidList .TAG_Short .TAG_Byte) := by
    rw [h.1]
    rfl
  exact ⟨h1, h.2 _ h1⟩

/-! ## C4: `read_root` on a non-compound first byte -/

/-- Bool discriminator for the `InvalidImplicit` error kind. -/
def NBTError.isInvalidImplicit : NBTError → Bool
  | .invalidImplicit _ => true
  | _ => false

/-- C4 counterexample: on the stream `[13]` — whose first byte is not 10 —
`read_root` fails with `InvalidTag{found: 13}`, which is not an
`InvalidImplicit` error, contrary to the claim. -/
theorem C4_read_root_counterexample :
    read_root 1 [13] = some (.error (.invalidTag 13)) ∧
    NBTError.isInvalidImplicit (.invalidTag 13) = false := by
  exact ⟨rfl, rfl⟩

/-- C4 (amended): `read_root` fails with `InvalidImplicit{found}` exactly when
the first byte parses to an ident other than `TAG_Compound` (i.e. is in 0–12
and not 10); a first byte outside 0–12 fails earlier, in `read_ident`, with
`InvalidTag{found}`, and the empty stream fails with the IO (EOF) error. -/
theorem C4_read_root_invalid_implicit (fuel : Nat) (b : Nat) (bs : List Nat) :
    (∀ i, TagIdent.parse b = some i → i ≠ .TAG_Compound →
      read_root fuel (b :: bs) = some (.error (.invalidImplicit i))) ∧
    (TagIdent.parse b = none → read_root fuel (b :: bs) = some (.error (.invalidTag b))) ∧
    read_root fuel [] = some (.error .ioErr) := by
  refine ⟨?_, ?_, rfl⟩
  · intro i hi hne
    unfold read_root read_ident
    have hb : readBE 1 0 (b :: bs) = .ok (b, bs) := by
      show readBE 0 (256 * 0 + b) bs = _
      simp [readBE]
    rw [hb]
    simp only [hi]
    rw [if_pos hne]
  · intro hb
    unfold read_root read_ident
    have hread : readBE 1 0 (b :: bs) = .ok (b, bs) := by
      show readBE 0 (256 * 0 + b) bs = _
      simp [readBE]
    rw [hread]
    simp only [hb]

theorem C4_read_root_invalid_implicit_witness :
    TagIdent.parse 9 = some .TAG_List ∧
    read_root 1 [9] = some (.error (.invalidImplicit .TAG_List)) := by
  exact ⟨rfl, (C4_read_root_invalid_implicit 1 9 []).1 .TAG_List rfl (by decide)⟩

/-! ## C9: `write_string` on over-long strings -/

theorem utf8Encode_replicate_ascii (c : Nat) (h : c < 0x80) :
    ∀ n, utf8Encode (List.replicate n c) = List.replicate n c := by
  intro n
  induction n with
  | zero => rfl
  | succ n ih =>
    have he : utf8EncodeChar c = [c] := by simp [utf8EncodeChar, h]
    simp [List.replicate, utf8Encode, he, ih]

/-- C9: for a string whose UTF-8 byte length exceeds 65535, `write_string` (and
hence `write_tag` on the string tag) does not fail: it writes the byte length
reduced modulo 2^16 as the 16-bit prefix — the silent `as u16` truncation, so
the prefix differs from the true length — followed by all the bytes. -/
theorem C9_write_string_truncates (s : RStr) (h : 65535 < (utf8Encode s).length) :
    write_tag (.string s) =
      .ok (beN 2 ((utf8Encode s).length % 65536) ++ utf8Encode s) ∧
    (utf8Encode s).length % 65536 ≠ (utf8Encode s).length := by
  constructor
  · simp [write_tag, write_string]
  · omega

theorem C9_write_string_truncates_witness :
    65535 < (utf8Encode (List.replicate 65536 97)).length ∧
    (write_tag (.string (List.replicate 65536 97)) =
      .ok (beN 2 ((utf8Encode (List.replicate 65536 97)).length % 65536) ++
        utf8Encode (List.replicate 65536 97)) ∧
     (utf8Encode (List.replicate 65536 97)).length % 65536 ≠
      (utf8Encode (List.replicate 65536 97)).length) := by
  have hlen : (utf8Encode (List.replicate 65536 97)).length = 65536 := by
    rw [utf8Encode_replicate_ascii 97 (by norm_num) 65536, List.length_replicate]
  exact ⟨by omega, C9_write_string_truncates _ (by omega)⟩

/-! ## C8: duplicate compound keys -/

theorem read_compound_end (fuel : Nat) (acc : List (RStr × Tag)) (rest : List Nat) :
    read_compound (fuel + 1) acc (0 :: rest) = some (.ok (acc, rest)) := rfl

theorem read_tag_byte (f : Nat) (b : Nat) (bs : List Nat) :
    read_tag (f + 1) .TAG_Byte (b :: bs) = some (.ok (.byte b, bs)) := by
  have h : read_tag (f + 1) .TAG_Byte (b :: bs) = some (.ok (.byte (256 * 0 + b), bs)) := rfl
  simpa using h

theorem read_compound_step (fuel : Nat) (acc : List (RStr × Tag)) (name : RStr)
    (hn : strWF name = true) (b : Nat) (X : List Nat) :
    read_compound (fuel + 1) acc (1 :: (write_string name ++ (b :: X))) =
      read_compound fuel (insertAssoc name (.byte b) acc) X := by
  have step : read_compound (fuel + 1) acc (1 :: (write_string name ++ (b :: X))) =
      (match read_string (write_string name ++ (b :: X)) with
       | .error e => some (.error e)
       | .ok (nm, rest2) =>
         match read_tag fuel .TAG_Byte rest2 with
         | none => none
         | some (.error e) => some (.error e)
         | some (.ok (payload, rest3)) => read_compound fuel (insertAssoc nm payload acc) rest3) := rfl
  rw [step, read_string_write_string name hn]
  cases fuel with
  | zero => rfl
  | succ f => simp only [read_tag_byte]

/-- C8: a compound body with two `Byte` entries of the same name decodes
without error, and the mapping holds the later entry's payload (the
`HashMap::insert` of the second entry overwrites the first). -/
theorem C8_read_compound_last_write_wins (f : Nat) (name : RStr) (b1 b2 : Nat)
    (rest : List Nat) (hn : strWF name = true) :
    read_compound (f + 3) []
      (1 :: (write_string name ++ (b1 :: (1 :: (write_string name ++ (b2 :: (0 :: rest))))))) =
      some (.ok ([(name, Tag.byte b2)], rest)) := by
  have h1 := read_compound_step (f + 2) [] name hn b1
    (1 :: (write_string name ++ (b2 :: (0 :: rest))))
  have e1 : f + 2 + 1 = f + 3 := rfl
  rw [e1] at h1
  have h2 := read_compound_step (f + 1) (insertAssoc name (.byte b1) []) name hn b2 (0 :: rest)
  have e2 : f + 1 + 1 = f + 2 := rfl
  rw [e2] at h2
  rw [h1, h2, read_compound_end f]
  simp [insertAssoc]

theorem C8_read_compound_last_write_wins_witness :
    strWF (strLit ("a")) = true ∧
    read_compound 3 []
      (1 :: (write_string (strLit ("a")) ++
        (7 :: (1 :: (write_string (strLit ("a")) ++ (9 :: (0 :: []))))))) =
      some (.ok ([(strLit ("a"), Tag.byte 9)], [])) := by
  exact ⟨rfl, C8_read_compound_last_write_wins 0 (strLit ("a")) 7 9 [] rfl⟩

/-! ## C2: modified UTF-8 on the wire -/

/-- Modelled from the spec (and the `TAG_String` doc comment in `tags.rs`): the
modified-UTF-8 (Java CESU-8) wire encoding of one scalar value, in which a
supplementary-plane character is written as a UTF-16 surrogate pair, each half
encoded as a 3-byte sequence, never as a 4-byte UTF-8 sequence. -/
def modifiedUtf8EncodeChar (c : Nat) : List Nat :=
  if c < 0x10000 then utf8EncodeChar c
  else utf8EncodeChar (0xD800 + (c - 0x10000) / 1024) ++
    utf8EncodeChar (0xDC00 + (c - 0x10000) % 1024)

/-- Modelled from the spec: modified UTF-8 of a whole string. -/
def modifiedUtf8Encode : RStr → List Nat
  | [] => []
  | c :: cs => modifiedUtf8EncodeChar c ++ modifiedUtf8Encode cs

/-- C2: on the supplementary-plane string `"😀"` (U+1F600), `write_tag` emits
the plain 4-byte UTF-8 sequence with length prefix 4 — not the 6-byte
surrogate-pair modified UTF-8 the claim (and the crate's own `TAG_String`
documentation) requires; the crate's own decoder still round-trips these bytes
because `decode_wonky_string` accepts valid UTF-8 verbatim. -/
theorem C2_write_string_not_modified_utf8 :
    write_tag (.string (strLit ("😀"))) = .ok [0, 4, 240, 159, 152, 128] ∧
    beN 2 ((modifiedUtf8Encode (strLit ("😀"))).length % 65536) ++
      modifiedUtf8Encode (strLit ("😀")) = [0, 6, 237, 160, 189, 237, 184, 128] ∧
    ([0, 4, 240, 159, 152, 128] : List Nat) ≠ [0, 6, 237, 160, 189, 237, 184, 128] ∧
    read_tag 1 .TAG_String [0, 4, 240, 159, 152, 128] =
      some (.ok (.string (strLit ("😀")), [])) := by
  refine ⟨rfl, rfl, by decide, rfl⟩

/-! ## C5, C6, C7, C10: the serde bridge -/

/-- A concrete visitor that reifies what the deserializer hands it, for the
closed evaluations below. -/
def probeVisitor : Visitor (List Tag) where
  visitI8 v := .ok [.byte v]
  visitI16 v := .ok [.short v]
  visitI32 v := .ok [.int v]
  visitI64 v := .ok [.long v]
  visitF32 v := .ok [.float v]
  visitF64 v := .ok [.double v]
  visitString s := .ok [.string s]
  visitChar c := .ok [.string [c]]
  visitSeq items := .ok items
  visitMap entries := .ok [.compound entries]
  visitNone := .ok []

/-- C5 counterexample: `deserialize_seq` on a `ByteArray` does not succeed like
it does on a `List`: it fails with `InvalidType{expecting: TAG_List, when:
"seq"}`, while the same request on a `List` succeeds. -/
theorem C5_deserialize_seq_counterexample :
    deserialize_seq probeVisitor (some (.byteArray [1])) =
      .error (.invalidType .TAG_Byte_Array .TAG_List (strLit ("seq"))) ∧
    deserialize_seq probeVisitor (some (.list [.byte 1])) = .ok [.byte 1] := by
  exact ⟨rfl, rfl⟩

/-- C5 (amended): the scalar arrays are exposed as sequence cursors of their
boxed scalar element tags through `deserialize_any`, which hands `visit_seq`
the boxed elements exactly as it hands a `List` its elements; `deserialize_seq`
itself accepts only `Tag::List` and fails with `InvalidType` on the arrays. -/
theorem C5_arrays_seq_via_any {α : Type} (v : Visitor α) (bl il ll : List Nat) (ts : List Tag) :
    deserialize_any v (some (.byteArray bl)) = v.visitSeq (bl.map Tag.byte) ∧
    deserialize_any v (some (.intArray il)) = v.visitSeq (il.map Tag.int) ∧
    deserialize_any v (some (.longArray ll)) = v.visitSeq (ll.map Tag.long) ∧
    deserialize_any v (some (.list ts)) = v.visitSeq ts ∧
    deserialize_seq v (some (.byteArray bl)) =
      .error (.invalidType .TAG_Byte_Array .TAG_List (strLit ("seq"))) ∧
    deserialize_seq v (some (.intArray il)) =
      .error (.invalidType .TAG_Int_Array .TAG_List (strLit ("seq"))) ∧
    deserialize_seq v (some (.longArray ll)) =
      .error (.invalidType .TAG_Long_Array .TAG_List (strLit ("seq"))) ∧
    deserialize_seq v (some (.list ts)) = v.visitSeq ts := by
  exact ⟨rfl, rfl, rfl, rfl, rfl, rfl, rfl, rfl⟩

/-- C6 counterexample: the newtype variant `V(5i8)` serializes to the
externally tagged single-entry compound `{"V": Byte(5)}`, not to the payload's
own tag `Byte(5)` as the claim ("no additional wrapping") states. -/
theorem C6_newtype_variant_counterexample :
    serialize_value defaultCfg (.sNewtypeVariant (strLit ("V")) (.sI8 5)) =
      .ok (some (.compound [(strLit ("V"), .byte 5)])) ∧
    serialize_value defaultCfg (.sI8 5) = .ok (some (.byte 5)) ∧
    Tag.compound [(strLit ("V"), .byte 5)] ≠ .byte 5 := by
  refine ⟨rfl, rfl, by simp⟩

/-- C6 (amended): a newtype enum variant recurses into its payload and wraps
any produced tag in `external(variant, ·)` — the single-entry compound keyed by
the variant name; a payload producing no tag yields `None`, and a payload error
propagates. -/
theorem C6_newtype_variant_external (cfg : SerdeCfg) (variant : RStr) (v : SValue) :
    serialize_value cfg (.sNewtypeVariant variant v) =
      (match serialize_value cfg v with
       | .error e => .error e
       | .ok (some x) => .ok (some (external variant x))
       | .ok none => .ok none) := rfl

/-- C7: `deserialize_char` checks `String::len()` — the UTF-8 byte count — so
the one-character string `"é"` (2 bytes) fails with `InvalidChar` even though
`serialize_value` produces exactly that tag for the char `'é'`; a one-byte
string still succeeds with its single character. -/
theorem C7_deserialize_char_byte_length :
    deserialize_char probeVisitor (some (.string (strLit ("é")))) = .error .invalidChar ∧
    (strLit ("é")).length = 1 ∧
    serialize_value defaultCfg (.sChar 233) = .ok (some (.string (strLit ("é")))) ∧
    deserialize_char probeVisitor (some (.string (strLit ("a")))) =
      .ok [.string (strLit ("a"))] ∧
    deserialize_char probeVisitor (some (.byte 1)) =
      .error (.invalidType .TAG_Byte .TAG_String (strLit ("char"))) ∧
    deserialize_char probeVisitor none = .error (.noData (strLit ("char"))) := by
  exact ⟨rfl, rfl, rfl, rfl, rfl, rfl⟩

/-- C10 counterexample: a map entry whose key is a raw-bytes value is not
silently omitted: serializing the key errors and the error propagates out of
the map serialization, contrary to "no error is raised". -/
theorem C10_map_key_error_counterexample :
    serialize_value defaultCfg (.sMap [(.sBytes [], .sI8 1)]) =
      .error (.unserializableType (strLit ("bytes"))) ∧
    serialize_value defaultCfg (.sBytes []) =
      .error (.unserializableType (strLit ("bytes"))) := by
  exact ⟨rfl, rfl⟩

/-- C10 (amended): per map entry, a key that serializes successfully to
anything other than a `String` tag makes the whole entry be skipped — its value
is never serialized or inserted; under a string key a value serializing to
`None` is skipped and a value serializing to a tag is inserted; the compound
returned at the end is just the accumulated map, so the result can have fewer
entries than the source map, without error.  Key or value serialization errors,
however, propagate. -/
theorem C10_map_entry_filtering (cfg : SerdeCfg) (k v : SValue)
    (entries : List (SValue × SValue)) (map : List (RStr × Tag)) :
    (∀ kt, serialize_value cfg k = .ok kt → (∀ s, kt ≠ some (.string s)) →
      serialize_map_entries cfg none map ((k, v) :: entries) =
        serialize_map_entries cfg none map entries) ∧
    (∀ s, serialize_value cfg k = .ok (some (.string s)) →
      serialize_value cfg v = .ok none →
      serialize_map_entries cfg none map ((k, v) :: entries) =
        serialize_map_entries cfg none map entries) ∧
    (∀ s tv, serialize_value cfg k = .ok (some (.string s)) →
      serialize_value cfg v = .ok (some tv) →
      serialize_map_entries cfg none map ((k, v) :: entries) =
        serialize_map_entries cfg none (insertAssoc s tv map) entries) ∧
    serialize_value cfg (.sMap entries) =
      (match serialize_map_entries cfg none [] entries with
       | .error e => .error e
       | .ok m => .ok (some (.compound m))) := by
  have step : serialize_map_entries cfg none map ((k, v) :: entries) =
      (match serialize_value cfg k with
       | .error e => .error e
       | .ok kt =>
         match (match kt with | some (.string s) => some s | _ => none) with
         | some kk =>
           (match serialize_value cfg v with
            | .error e => .error e
            | .ok (some tv) => serialize_map_entries cfg none (insertAssoc kk tv map) entries
            | .ok none => serialize_map_entries cfg none map entries)
         | none => serialize_map_entries cfg none map entries) := rfl
  refine ⟨?_, ?_, ?_, rfl⟩
  · intro kt hk hne
    rw [step, hk]
    match kt with
    | none => rfl
    | some (.string s) => exact absurd rfl (hne s)
    | some (.byte _) | some (.short _) | some (.int _) | some (.long _)
    | some (.float _) | some (.double _) | some (.byteArray _) | some (.list _)
    | some (.compound _) | some (.intArray _) | some (.longArray _) => rfl
  · intro s hk hv
    rw [step, hk]
    simp only [hv]
  · intro s tv hk hv
    rw [step, hk]
    simp only [hv]

theorem C10_map_entry_filtering_witness :
    serialize_value defaultCfg (.sI32 7) = .ok (some (.int 7)) ∧
    serialize_map_entries defaultCfg none [] [(.sI32 7, .sI8 1)] =
      serialize_map_entries defaultCfg none [] [] ∧
    serialize_value defaultCfg (.sMap [(.sI32 7, .sI8 1)]) = .ok (some (.compound [])) := by
  have h := C10_map_entry_filtering defaultCfg (.sI32 7) (.sI8 1) [] []
  have h1 := h.1 (some (.int 7)) rfl (by intro s hs; simp at hs)
  refine ⟨rfl, h1, ?_⟩
  have h4 := (C10_map_entry_filtering defaultCfg (.sI32 7) (.sI8 1) [(.sI32 7, .sI8 1)] []).2.2.2
  rw [h4, h1]
  rfl

/-! ## C1: round trip — supporting lemmas -/

theorem readBE0 (w x : Nat) (rest : List Nat) (h : x < 256 ^ w) :
    readBE w 0 (beN w x ++ rest) = .ok (x, rest) := by
  simpa using readBE_beN w x 0 rest h

theorem read_scalars_write_scalars (w : Nat) (vs : List Nat) :
    ∀ rest, (∀ v ∈ vs, v < 256 ^ w) →
      read_scalars w vs.length (write_scalars w vs ++ rest) = .ok (vs, rest) := by
  induction vs with
  | nil => intro rest _; rfl
  | cons v vs ih =>
    intro rest hv
    have hv0 : v < 256 ^ w := hv v (by simp)
    have hvs : ∀ x ∈ vs, x < 256 ^ w := fun x hx => hv x (by simp [hx])
    show read_scalars w (vs.length + 1) ((beN w v ++ write_scalars w vs) ++ rest) = _
    have step : read_scalars w (vs.length + 1) ((beN w v ++ write_scalars w vs) ++ rest) =
        (match readBE w 0 ((beN w v ++ write_scalars w vs) ++ rest) with
         | .error e => .error e
         | .ok (x, r) =>
           match read_scalars w vs.length r with
           | .error e => .error e
           | .ok (xs, r2) => .ok (x :: xs, r2)) := rfl
    rw [step, List.append_assoc, readBE0 w v _ hv0]
    simp only [ih rest hvs]

theorem read_ident_cons (b : Nat) (bs : List Nat) :
    read_ident (b :: bs) =
      (match TagIdent.parse b with
       | some x => .ok (x, bs)
       | none => .error (.invalidTag b)) := by
  have h : read_ident (b :: bs) =
      (match TagIdent.parse (256 * 0 + b) with
       | some x => .ok (x, bs)
       | none => .error (.invalidTag (256 * 0 + b))) := rfl
  simpa using h

theorem TagIdent.parse_code (i : TagIdent) : TagIdent.parse i.code = some i := by
  cases i <;> rfl

theorem read_ident_code (i : TagIdent) (bs : List Nat) :
    read_ident (i.code :: bs) = .ok (i, bs) := by
  rw [read_ident_cons, TagIdent.parse_code]

theorem Tag.ident_ne_end (t : Tag) : t.ident ≠ .TAG_End := by
  cases t <;> simp [Tag.ident]

theorem insertAssoc_fresh (k : RStr) (v : Tag) (acc : List (RStr × Tag)) :
    (∀ a ∈ acc, a.1 ≠ k) → insertAssoc k v acc = acc ++ [(k, v)] := by
  induction acc with
  | nil => intro _; rfl
  | cons a acc ih =>
    intro h
    have ha : a.1 ≠ k := h a (by simp)
    obtain ⟨a1, a2⟩ := a
    simp only [insertAssoc, if_neg ha, List.cons_append, List.cons.injEq, true_and]
    exact ih (fun x hx => h x (by simp [hx]))

theorem ensure_homog (t : Tag) (ts : List Tag) (h : listHomog (t :: ts) = true) :
    ensure_list_integrity (t :: ts) = .ok t.ident := by
  have hall : ∀ x ∈ ts, x.ident = t.ident := by
    simpa [listHomog, List.all_eq_true] using h
  show listCheckLoop t.ident (t :: ts) = .ok t.ident
  rw [listCheckLoop_spec]
  have hfind : (t :: ts).find? (fun x => decide (x.ident ≠ t.ident)) = none := by
    rw [List.find?_eq_none]
    intro x hx
    rcases List.mem_cons.mp hx with h1 | h1
    · subst h1; simp
    · simp [hall x h1]
  rw [hfind]

theorem tagCost_pos (t : Tag) : 1 ≤ tagCost t := by
  cases t <;> simp [tagCost]

theorem listCost_pos (ts : List Tag) : 1 ≤ listCost ts := by
  cases ts <;> simp [listCost]

theorem compCost_pos (m : List (RStr × Tag)) : 1 ≤ compCost m := by
  cases m with
  | nil => simp [compCost]
  | cons e m => obtain ⟨k, v⟩ := e; simp [compCost]

theorem roundtrip_aux : ∀ fuel : Nat,
    (∀ t, tagWF t = true → tagCost t ≤ fuel → ∀ rest, ∃ bs,
      write_tag t = .ok bs ∧ read_tag fuel t.ident (bs ++ rest) = some (.ok (t, rest))) ∧
    (∀ i ts, listWF ts = true → (∀ x ∈ ts, x.ident = i) → listCost ts ≤ fuel → ∀ rest, ∃ bs,
      write_list ts = .ok bs ∧ read_list fuel i ts.length (bs ++ rest) = some (.ok (ts, rest))) ∧
    (∀ m acc, compWF m = true → keysDistinct m = true → compCost m ≤ fuel →
      (∀ e ∈ m, ∀ a ∈ acc, a.1 ≠ e.1) → ∀ rest, ∃ bs,
      write_compound m = .ok bs ∧
      read_compound fuel acc (bs ++ rest) = some (.ok (acc ++ m, rest))) := by
  intro fuel
  induction fuel with
  | zero =>
    refine ⟨?_, ?_, ?_⟩
    · intro t _ hc
      exact absurd hc (by have := tagCost_pos t; omega)
    · intro i ts _ _ hc
      exact absurd hc (by have := listCost_pos ts; omega)
    · intro m acc _ _ hc
      exact absurd hc (by have := compCost_pos m; omega)
  | succ n ih =>
    obtain ⟨ihP, ihQ, ihR⟩ := ih
    refine ⟨?_, ?_, ?_⟩
    · intro t hwf hc rest
      cases t with
      | byte v =>
        have hv : v < 256 ^ 1 := by
          simp [tagWF] at hwf
          simpa using hwf
        refine ⟨beN 1 v, rfl, ?_⟩
        have step : read_tag (n + 1) (Tag.byte v).ident (beN 1 v ++ rest) =
            (match readBE 1 0 (beN 1 v ++ rest) with
             | .error e => some (.error e)
             | .ok (x, r) => some (.ok (.byte x, r))) := rfl
        rw [step, readBE0 1 v rest hv]
      | short v =>
        have hv : v < 256 ^ 2 := by
          simp [tagWF] at hwf
          norm_num
          exact hwf
        refine ⟨beN 2 v, rfl, ?_⟩
        have step : read_tag (n + 1) (Tag.short v).ident (beN 2 v ++ rest) =
            (match readBE 2 0 (beN 2 v ++ rest) with
             | .error e => some (.error e)
             | .ok (x, r) => some (.ok (.short x, r))) := rfl
        rw [step, readBE0 2 v rest hv]
      | int v =>
        have hv : v < 256 ^ 4 := by
          simp [tagWF] at hwf
          norm_num
          exact hwf
        refine ⟨beN 4 v, rfl, ?_⟩
        have step : read_tag (n + 1) (Tag.int v).ident (beN 4 v ++ rest) =
            (match readBE 4 0 (beN 4 v ++ rest) with
             | .error e => some (.error e)
             | .ok (x, r) => some (.ok (.int x, r))) := rfl
        rw [step, readBE0 4 v rest hv]
      | long v =>
        have hv : v < 256 ^ 8 := by
          simp [tagWF] at hwf
          norm_num
          exact hwf
        refine ⟨beN 8 v, rfl, ?_⟩
        have step : read_tag (n + 1) (Tag.long v).ident (beN 8 v ++ rest) =
            (match readBE 8 0 (beN 8 v ++ rest) with
             | .error e => some (.error e)
             | .ok (x, r) => some (.ok (.long x, r))) := rfl
        rw [step, readBE0 8 v rest hv]
      | float v =>
        have hv : v < 256 ^ 4 := by
          simp [tagWF] at hwf
          norm_num
          exact hwf
        refine ⟨beN 4 v, rfl, ?_⟩
        have step : read_tag (n + 1) (Tag.float v).ident (beN 4 v ++ rest) =
            (match readBE 4 0 (beN 4 v ++ rest) with
             | .error e => some (.error e)
             | .ok (x, r) => some (.ok (.float x, r))) := rfl
        rw [step, readBE0 4 v rest hv]
      | double v =>
        have hv : v < 256 ^ 8 := by
          simp [tagWF] at hwf
          norm_num
          exact hwf
        refine ⟨beN 8 v, rfl, ?_⟩
        have step : read_tag (n + 1) (Tag.double v).ident (beN 8 v ++ rest) =
            (match readBE 8 0 (beN 8 v ++ rest) with
             | .error e => some (.error e)
             | .ok (x, r) => some (.ok (.double x, r))) := rfl
        rw [step, readBE0 8 v rest hv]
      | byteArray vs =>
        have hparts : vs.length < 4294967296 ∧ ∀ v ∈ vs, v < 256 := by
          simpa [tagWF, List.all_eq_true] using hwf
        obtain ⟨hlen, hv⟩ := hparts
        have hmod : vs.length % 4294967296 = vs.length := Nat.mod_eq_of_lt hlen
        refine ⟨beN 4 (vs.length % 4294967296) ++ write_scalars 1 vs, rfl, ?_⟩
        have step : read_tag (n + 1) (Tag.byteArray vs).ident
            ((beN 4 (vs.length % 4294967296) ++ write_scalars 1 vs) ++ rest) =
            (match readBE 4 0 ((beN 4 (vs.length % 4294967296) ++ write_scalars 1 vs) ++ rest) with
             | .error e => some (.error e)
             | .ok (length, r) =>
               match read_scalars 1 length r with
               | .error e => some (.error e)
               | .ok (xs, r2) => some (.ok (.byteArray xs, r2))) := rfl
        rw [step, List.append_assoc, hmod,
          readBE0 4 vs.length _ (by norm_num; omega)]
        simp only [read_scalars_write_scalars 1 vs rest (by simpa using hv)]
      | string s =>
        refine ⟨write_string s, rfl, ?_⟩
        have step : read_tag (n + 1) (Tag.string s).ident (write_string s ++ rest) =
            (match read_string (write_string s ++ rest) with
             | .error e => some (.error e)
             | .ok (x, r) => some (.ok (.string x, r))) := rfl
        rw [step, read_string_write_string s (by simpa [tagWF] using hwf)]
      | list ts =>
        have hparts : ts.length < 4294967296 ∧ listHomog ts = true ∧ listWF ts = true := by
          simpa [tagWF, and_assoc] using hwf
        obtain ⟨hlen, hhom, hl⟩ := hparts
        have hmod : ts.length % 4294967296 = ts.length := Nat.mod_eq_of_lt hlen
        have ecost : tagCost (.list ts) = 1 + listCost ts := rfl
        have hcost : listCost ts ≤ n := by omega
        cases ts with
        | nil =>
          have hpos : 1 ≤ n := by
            have : listCost ([] : List Tag) = 1 := rfl
            omega
          obtain ⟨m, rfl⟩ : ∃ m, n = m + 1 := ⟨n - 1, by omega⟩
          exact ⟨[0, 0, 0, 0, 0], rfl, rfl⟩
        | cons t ts' =>
          have hens : ensure_list_integrity (t :: ts') = .ok t.ident := ensure_homog t ts' hhom
          have htail : ∀ x ∈ ts', x.ident = t.ident := by
            simpa [listHomog, List.all_eq_true] using hhom
          have hid : ∀ x ∈ t :: ts', x.ident = t.ident := by
            intro x hx
            rcases List.mem_cons.mp hx with h1 | h1
            · rw [h1]
            · exact htail x h1
          obtain ⟨body, hwl, hrl⟩ := ihQ t.ident (t :: ts') hl hid hcost rest
          refine ⟨t.ident.code :: beN 4 ((t :: ts').length % 4294967296) ++ body, ?_, ?_⟩
          · have stepw : write_tag (.list (t :: ts')) =
                (match ensure_list_integrity (t :: ts') with
                 | .error e => .error e
                 | .ok list_type =>
                   match write_list (t :: ts') with
                   | .error e => .error e
                   | .ok body => .ok (list_type.code :: beN 4 ((t :: ts').length % 4294967296) ++ body)) := rfl
            rw [stepw, hens]
            simp only [hwl]
          · have stepr : read_tag (n + 1) (Tag.list (t :: ts')).ident
                ((t.ident.code :: beN 4 ((t :: ts').length % 4294967296) ++ body) ++ rest) =
                (match read_ident ((t.ident.code :: beN 4 ((t :: ts').length % 4294967296) ++ body) ++ rest) with
                 | .error e => some (.error e)
                 | .ok (ident, r) =>
                   match readBE 4 0 r with
                   | .error e => some (.error e)
                   | .ok (length, r2) =>
                     match read_list n ident length r2 with
                     | none => none
                     | some (.error e) => some (.error e)
                     | some (.ok (xs, r3)) => some (.ok (.list xs, r3))) := rfl
            rw [stepr]
            have e1 : (t.ident.code :: beN 4 ((t :: ts').length % 4294967296) ++ body) ++ rest =
                t.ident.code :: (beN 4 ((t :: ts').length % 4294967296) ++ (body ++ rest)) := by
              simp [List.append_assoc]
            rw [e1, read_ident_code]
            have hlt : (t :: ts').length < 256 ^ 4 := by
              norm_num at hlen ⊢
              omega
            simp only [hmod, readBE0 4 (t :: ts').length (body ++ rest) hlt, hrl]
      | compound m =>
        have hparts : keysDistinct m = true ∧ compWF m = true := by simpa [tagWF] using hwf
        obtain ⟨hk, hcw⟩ := hparts
        have ecost : tagCost (.compound m) = 1 + compCost m := rfl
        have hcost : compCost m ≤ n := by omega
        obtain ⟨bs, hwc, hrc⟩ := ihR m [] hcw hk hcost (by simp) rest
        refine ⟨bs, hwc, ?_⟩
        have stepr : read_tag (n + 1) (Tag.compound m).ident (bs ++ rest) =
            (match read_compound n [] (bs ++ rest) with
             | none => none
             | some (.error e) => some (.error e)
             | some (.ok (x, r)) => some (.ok (.compound x, r))) := rfl
        rw [stepr, hrc]
        rfl
      | intArray vs =>
        have hparts : vs.length < 4294967296 ∧ ∀ v ∈ vs, v < 4294967296 := by
          simpa [tagWF, List.all_eq_true] using hwf
        obtain ⟨hlen, hv⟩ := hparts
        have hmod : vs.length % 4294967296 = vs.length := Nat.mod_eq_of_lt hlen
        refine ⟨beN 4 (vs.length % 4294967296) ++ write_scalars 4 vs, rfl, ?_⟩
        have step : read_tag (n + 1) (Tag.intArray vs).ident
            ((beN 4 (vs.length % 4294967296) ++ write_scalars 4 vs) ++ rest) =
            (match readBE 4 0 ((beN 4 (vs.length % 4294967296) ++ write_scalars 4 vs) ++ rest) with
             | .error e => some (.error e)
             | .ok (length, r) =>
               match read_scalars 4 length r with
               | .error e => some (.error e)
               | .ok (xs, r2) => some (.ok (.intArray xs, r2))) := rfl
        rw [step, List.append_assoc, hmod,
          readBE0 4 vs.length _ (by norm_num; omega)]
        simp only [read_scalars_write_scalars 4 vs rest
          (by intro x hx; have := hv x hx; norm_num; omega)]
      | longArray vs =>
        have hparts : vs.length < 4294967296 ∧ ∀ v ∈ vs, v < 18446744073709551616 := by
          simpa [tagWF, List.all_eq_true] using hwf
        obtain ⟨hlen, hv⟩ := hparts
        have hmod : vs.length % 4294967296 = vs.length := Nat.mod_eq_of_lt hlen
        refine ⟨beN 4 (vs.length % 4294967296) ++ write_scalars 8 vs, rfl, ?_⟩
        have step : read_tag (n + 1) (Tag.longArray vs).ident
            ((beN 4 (vs.length % 4294967296) ++ write_scalars 8 vs) ++ rest) =
            (match readBE 4 0 ((beN 4 (vs.length % 4294967296) ++ write_scalars 8 vs) ++ rest) with
             | .error e => some (.error e)
             | .ok (length, r) =>
               match read_scalars 8 length r with
               | .error e => some (.error e)
               | .ok (xs, r2) => some (.ok (.longArray xs, r2))) := rfl
        rw [step, List.append_assoc, hmod,
          readBE0 4 vs.length _ (by norm_num; omega)]
        simp only [read_scalars_write_scalars 8 vs rest
          (by intro x hx; have := hv x hx; norm_num; omega)]
    · intro i ts hwf hid hcost rest
      cases ts with
      | nil => exact ⟨[], rfl, rfl⟩
      | cons t ts' =>
        have hti : i = t.ident := (hid t (by simp)).symm
        subst hti
        have hparts : tagWF t = true ∧ listWF ts' = true := by simpa [listWF] using hwf
        obtain ⟨ht, hts⟩ := hparts
        have ecost : listCost (t :: ts') = 1 + max (tagCost t) (listCost ts') := rfl
        obtain ⟨bl, hwl, hrl⟩ := ihQ t.ident ts' hts (fun x hx => hid x (by simp [hx]))
          (by omega) rest
        obtain ⟨bt, hwt, hrt⟩ := ihP t ht (by omega) (bl ++ rest)
        refine ⟨bt ++ bl, ?_, ?_⟩
        · have stepw : write_list (t :: ts') =
              (match write_tag t with
               | .error e => .error e
               | .ok head =>
                 match write_list ts' with
                 | .error e => .error e
                 | .ok tail => .ok (head ++ tail)) := rfl
          rw [stepw, hwt]
          simp only [hwl]
        · have stepr : read_list (n + 1) t.ident (t :: ts').length ((bt ++ bl) ++ rest) =
              (match read_tag n t.ident ((bt ++ bl) ++ rest) with
               | none => none
               | some (.error e) => some (.error e)
               | some (.ok (x, r)) =>
                 match read_list n t.ident ts'.length r with
                 | none => none
                 | some (.error e) => some (.error e)
                 | some (.ok (xs, r2)) => some (.ok (x :: xs, r2))) := rfl
          rw [stepr, List.append_assoc, hrt]
          simp only [hrl]
    · intro m acc hcw hkd hcost hfresh rest
      cases m with
      | nil =>
        refine ⟨[TagIdent.code .TAG_End], rfl, ?_⟩
        have h : read_compound (n + 1) acc ([TagIdent.code .TAG_End] ++ rest) =
            some (.ok (acc, rest)) := rfl
        simpa using h
      | cons e m' =>
        obtain ⟨k, v⟩ := e
        have hparts : strWF k = true ∧ tagWF v = true ∧ compWF m' = true := by
          simpa [compWF, and_assoc] using hcw
        obtain ⟨hks, hv, hm'⟩ := hparts
        have hkparts : (∀ x ∈ m', x.1 ≠ k) ∧ keysDistinct m' = true := by
          simpa [keysDistinct, List.all_eq_true] using hkd
        obtain ⟨hknotin, hkd'⟩ := hkparts
        have ecost : compCost ((k, v) :: m') = 1 + max (tagCost v) (compCost m') := rfl
        have hfreshnew : ∀ e ∈ m', ∀ a ∈ acc ++ [(k, v)], a.1 ≠ e.1 := by
          intro e he a ha
          rcases List.mem_append.mp ha with h1 | h1
          · exact hfresh e (by simp [he]) a h1
          · have heq : a = (k, v) := by simpa using h1
            subst heq
            exact (hknotin e he).symm
        obtain ⟨bm, hwm, hrm⟩ := ihR m' (acc ++ [(k, v)]) hm' hkd' (by omega) hfreshnew rest
        obtain ⟨bv, hwv, hrv⟩ := ihP v hv (by omega) (bm ++ rest)
        refine ⟨v.ident.code :: write_string k ++ bv ++ bm, ?_, ?_⟩
        · have stepw : write_compound ((k, v) :: m') =
              (match write_tag v with
               | .error e => .error e
               | .ok body =>
                 match write_compound m' with
                 | .error e => .error e
                 | .ok tail => .ok (v.ident.code :: write_string k ++ body ++ tail)) := rfl
          rw [stepw, hwv]
          simp only [hwm]
        · have stepr : read_compound (n + 1) acc
              ((v.ident.code :: write_string k ++ bv ++ bm) ++ rest) =
              (match read_ident ((v.ident.code :: write_string k ++ bv ++ bm) ++ rest) with
               | .error e => some (.error e)
               | .ok (ident, r) =>
                 if ident = .TAG_End then some (.ok (acc, r))
                 else
                   match read_string r with
                   | .error e => some (.error e)
                   | .ok (name, r2) =>
                     match read_tag n ident r2 with
                     | none => none
                     | some (.error e) => some (.error e)
                     | some (.ok (payload, r3)) =>
                       read_compound n (insertAssoc name payload acc) r3) := rfl
          rw [stepr]
          have e1 : (v.ident.code :: write_string k ++ bv ++ bm) ++ rest =
              v.ident.code :: (write_string k ++ (bv ++ (bm ++ rest))) := by
            simp [List.append_assoc]
          rw [e1, read_ident_code]
          have hins : insertAssoc k v acc = acc ++ [(k, v)] :=
            insertAssoc_fresh k v acc (fun a ha => hfresh (k, v) (by simp) a ha)
          simp only [if_neg (Tag.ident_ne_end v), read_string_write_string k hks, hrv, hins, hrm]
          simp [List.append_assoc]

/-- C1 (amended): for every well-formed `Tag` tree — scalars within their
widths, strings valid Unicode of at most 65535 encoded bytes, arrays and lists
of fewer than 2^32 elements, lists homogeneous, compound keys distinct —
`write_tag` succeeds, and `read_tag` on the written ident and payload (with
sufficient fuel for the nesting) returns a tree equal to the original, leaving
the remaining stream untouched. -/
theorem C1_roundtrip (t : Tag) (h : tagWF t = true) (fuel : Nat)
    (hf : tagCost t ≤ fuel) (rest : List Nat) :
    ∃ bs, write_tag t = .ok bs ∧
      read_tag fuel t.ident (bs ++ rest) = some (.ok (t, rest)) :=
  (roundtrip_aux fuel).1 t h hf rest

theorem C1_roundtrip_witness :
    tagWF (Tag.compound [(strLit ("a"), .byte 5), (strLit ("b"), .list [.int 1, .int 2])]) = true ∧
    tagCost (Tag.compound [(strLit ("a"), .byte 5), (strLit ("b"), .list [.int 1, .int 2])]) ≤ 10 ∧
    ∃ bs,
      write_tag (Tag.compound [(strLit ("a"), .byte 5), (strLit ("b"), .list [.int 1, .int 2])]) =
        .ok bs ∧
      read_tag 10
          (Tag.compound [(strLit ("a"), .byte 5), (strLit ("b"), .list [.int 1, .int 2])]).ident
          (bs ++ []) =
        some (.ok (Tag.compound [(strLit ("a"), .byte 5), (strLit ("b"), .list [.int 1, .int 2])], [])) :=
  ⟨rfl, by decide,
    C1_roundtrip (Tag.compound [(strLit ("a"), .byte 5), (strLit ("b"), .list [.int 1, .int 2])])
      rfl 10 (by decide) []⟩

/-- C1 counterexample: the constructible tree `String("a" × 65536)` — which
contains no list at all, so every list in it is homogeneous — does not
round-trip: the `u16` length cast writes prefix 0, decoding returns the empty
string and leaves all 65536 payload bytes unconsumed. -/
theorem C1_roundtrip_counterexample :
    write_tag (.string (List.replicate 65536 97)) =
      .ok ([0, 0] ++ List.replicate 65536 97) ∧
    read_tag 1 .TAG_String ([0, 0] ++ List.replicate 65536 97) =
      some (.ok (.string [], List.replicate 65536 97)) ∧
    Tag.string ([] : RStr) ≠ .string (List.replicate 65536 97) := by
  have e := utf8Encode_replicate_ascii 97 (by norm_num) 65536
  refine ⟨?_, ?_, ?_⟩
  · have h1 : write_tag (.string (List.replicate 65536 97)) =
        .ok (write_string (List.replicate 65536 97)) := rfl
    rw [h1]
    unfold write_string
    rw [e, List.length_replicate]
    norm_num [beN]
  · have step : read_tag 1 .TAG_String ([0, 0] ++ List.replicate 65536 97) =
        (match read_string ([0, 0] ++ List.replicate 65536 97) with
         | .error e => some (.error e)
         | .ok (x, r) => some (.ok (.string x, r))) := rfl
    rw [step]
    have h2 : read_string ([0, 0] ++ List.replicate 65536 97) =
        .ok ([], List.replicate 65536 97) := rfl
    rw [h2]
  · intro h
    have h2 : ([] : RStr) = List.replicate 65536 97 := by injection h
    have h3 := congrArg List.length h2
    rw [List.length_replicate] at h3
    simp at h3

end NBT
